import Mathlib

/-!
Verification of the EventBot repository against its specification.

Python strings are modelled as `List Char`; Python floats are modelled as
exact rationals (`ℚ`), so the numeric claims are settled over exact
arithmetic rather than IEEE rounding.  Fallible Python code is modelled
with `Option`; external collaborators (LLM responses, the database driver,
Pinecone) are modelled as explicit oracle arguments, since the repository
treats them as opaque third parties.
-/

namespace EventBot

/-! ## Python string primitives -/

/-- ASCII whitespace as recognised by Python `str.strip()` (the unicode
whitespace classes beyond ASCII are not produced by any caller in the
repository). -/
def isPySpace (c : Char) : Bool :=
  c = ' ' || c = '\t' || c = '\n' || c = '\r' || c = '\x0b' || c = '\x0c'

/-- Python `str.strip()`: drop whitespace from both ends. -/
def pyStrip (s : List Char) : List Char :=
  ((s.dropWhile isPySpace).reverse.dropWhile isPySpace).reverse

/-- Numeric value of a decimal digit character. -/
def digVal (c : Char) : Nat := c.toNat - 48

/-- Value of a list of decimal digit characters, most significant first. -/
def digitsToNat (l : List Char) : Nat := l.foldl (fun a c => 10 * a + digVal c) 0

/-- Split a list at the first character satisfying `p`: returns the part
before it and, when found, the part after it. -/
def splitAtFirst (p : Char → Bool) : List Char → List Char × Option (List Char)
  | [] => ([], none)
  | c :: r =>
    if p c then ([], some r)
    else
      let (a, b) := splitAtFirst p r
      (c :: a, b)

/-- Mantissa of a Python float literal: `digits`, `digits.digits`,
`digits.` or `.digits`. -/
def parseMantissa (m : List Char) : Option ℚ :=
  let (ip, rest) := splitAtFirst (fun c => c = '.') m
  match rest with
  | none => if m ≠ [] ∧ m.all Char.isDigit then some (digitsToNat m) else none
  | some fp =>
    if (ip ≠ [] ∨ fp ≠ []) ∧ ip.all Char.isDigit ∧ fp.all Char.isDigit then
      some ((digitsToNat ip : ℚ) + (digitsToNat fp : ℚ) / 10 ^ fp.length)
    else none

/-- Exponent part of a Python float literal: an optional sign followed by
at least one digit. -/
def parseExp (e : List Char) : Option ℤ :=
  if e.head? = some '+' then
    if e.tail ≠ [] ∧ e.tail.all Char.isDigit then some (digitsToNat e.tail) else none
  else if e.head? = some '-' then
    if e.tail ≠ [] ∧ e.tail.all Char.isDigit then some (-(digitsToNat e.tail : ℤ)) else none
  else if e ≠ [] ∧ e.all Char.isDigit then some (digitsToNat e) else none

/-- Unsigned part of a Python float literal, with optional exponent. -/
def pyFloatUnsigned (s : List Char) : Option ℚ :=
  let (m, ex) := splitAtFirst (fun c => c = 'e' || c = 'E') s
  match ex with
  | none => parseMantissa m
  | some e =>
    match parseMantissa m, parseExp e with
    | some q, some z => some (q * (10 : ℚ) ^ z)
    | _, _ => none

/-- Model of CPython `float(str)` on finite decimal literals, returning the
exact rational value: surrounding whitespace is stripped, then an optional
sign precedes the unsigned literal.  The special forms `inf`, `nan` and
digit-group underscores are not representable in the rational model and
are treated as parse failures; no caller in the repository produces them
from tabular data. -/
def pyFloat (s : List Char) : Option ℚ :=
  if (pyStrip s).head? = some '-' then (pyFloatUnsigned (pyStrip s).tail).map (fun q => -q)
  else if (pyStrip s).head? = some '+' then pyFloatUnsigned (pyStrip s).tail
  else pyFloatUnsigned (pyStrip s)

/-! ## PDFProcessor._parse_numeric_value (src/backend/utils/pdf_processor.py) -/

/-- The currency-symbol character class removed by the regex in the
currency branch of `_parse_numeric_value`. -/
def currencySymbols : List Char :=
  ['$', '€', '£', '¥', '₹', '₽', '₩', '¢', '₦', '₨', '₪', '₫', '₡', '₲',
   '₴', '₸', '₵', '₶', '₷', '₺', '₻', '₼', '₾', '₿']

/-- Currency cleaning before the parenthesis test: remove currency
symbols, thousands-separator commas and spaces. -/
def stripCurrencySymbols (cleaned : List Char) : List Char :=
  ((cleaned.filter (fun c => decide (c ∉ currencySymbols))).filter
      (fun c => decide (c ≠ ','))).filter (fun c => decide (c ≠ ' '))

/-- Full currency cleaning: symbol removal followed by the accounting
transformation mapping a value wrapped in parentheses to a leading minus
sign. -/
def cleanCurrency (cleaned : List Char) : List Char :=
  if (stripCurrencySymbols cleaned).head? = some '('
      ∧ (stripCurrencySymbols cleaned).getLast? = some ')' then
    '-' :: ((stripCurrencySymbols cleaned).drop 1).dropLast
  else stripCurrencySymbols cleaned

/-- The character class kept by the regex in the float/integer branch of
`_parse_numeric_value` (digits, decimal point, minus sign and `e`). -/
def stripToNumeric (cleaned : List Char) : List Char :=
  cleaned.filter (fun c => c.isDigit || c = '.' || c = '-' || c = 'e')

/-- Model of `PDFProcessor._parse_numeric_value`.  A `ValueError` raised
by `float()` is the `none` result of `pyFloat`, absorbed by the
`except` clause returning `None`.  The Python local `cleaned_value` is
inlined as `pyStrip value` and the branch-local cleanups are the helper
definitions above. -/
def parseNumericValue (value : List Char) (expectedType : String) : Option ℚ :=
  if pyStrip value = [] then none
  else if expectedType = "currency" then
    if cleanCurrency (pyStrip value) = [] then none
    else pyFloat (cleanCurrency (pyStrip value))
  else if expectedType = "percentage" then
    if '%' ∈ pyStrip value then
      if pyStrip ((pyStrip value).filter (fun c => decide (c ≠ '%'))) = [] then none
      else (pyFloat (pyStrip ((pyStrip value).filter (fun c => decide (c ≠ '%'))))).map
        (fun q => q / 100)
    else pyFloat (pyStrip value)
  else if expectedType = "float" ∨ expectedType = "integer" then
    if expectedType = "integer" then
      (if stripToNumeric (pyStrip value) = [] then none
       else pyFloat (stripToNumeric (pyStrip value))).map
        (fun q => ((if 0 ≤ q then ⌊q⌋ else ⌈q⌉ : ℤ) : ℚ))
    else if stripToNumeric (pyStrip value) = [] then none
    else pyFloat (stripToNumeric (pyStrip value))
  else none

theorem pyFloat_nil : pyFloat [] = none := rfl

example : parseNumericValue "25%".toList "percentage" = some ((25 : ℚ) / 100) := rfl
example : parseNumericValue "$1,234.50".toList "currency" = some ((1234 : ℚ) + 50 / 10 ^ 2) := rfl
example : parseNumericValue "(1,000)".toList "currency" = some (-(1000 : ℚ)) := rfl
example : parseNumericValue "abc".toList "percentage" = none := rfl
example : parseNumericValue "0.4".toList "percentage" = some ((0 : ℚ) + 4 / 10 ^ 1) := rfl

lemma length_dropWhile_le (p : Char → Bool) (l : List Char) :
    (l.dropWhile p).length ≤ l.length := by
  induction l with
  | nil => simp [List.dropWhile]
  | cons a t ih =>
    simp only [List.dropWhile]
    cases p a
    · simp
    · simpa using Nat.le_succ_of_le ih

lemma isPySpace_eq_false_of_isDigit {c : Char} (h : c.isDigit = true) :
    isPySpace c = false := by
  cases hd : isPySpace c
  · rfl
  · exfalso
    have hc : c = ' ' ∨ c = '\t' ∨ c = '\n' ∨ c = '\r' ∨ c = '\x0b' ∨ c = '\x0c' := by
      simpa [isPySpace, or_assoc] using hd
    rcases hc with h1 | h1 | h1 | h1 | h1 | h1 <;> subst h1 <;> exact absurd h (by decide)

lemma ne_minus_of_isDigit {c : Char} (h : c.isDigit = true) : c ≠ '-' := by
  intro hc; subst hc; exact absurd h (by decide)

lemma ne_plus_of_isDigit {c : Char} (h : c.isDigit = true) : c ≠ '+' := by
  intro hc; subst hc; exact absurd h (by decide)

lemma dropWhile_eq_self_of_head {p : Char → Bool} {l : List Char} {c : Char}
    (h1 : l.head? = some c) (h2 : p c = false) : l.dropWhile p = l := by
  cases l with
  | nil => simp at h1
  | cons a t =>
    simp only [List.head?_cons, Option.some.injEq] at h1
    subst h1
    simp [List.dropWhile, h2]

lemma pyStrip_cons_minus {mid : List Char} {c : Char}
    (h1 : mid.head? = some c) (h2 : isPySpace c = false) (h3 : pyStrip mid = mid) :
    pyStrip ('-' :: mid) = '-' :: mid := by
  have hfront : mid.dropWhile isPySpace = mid := dropWhile_eq_self_of_head h1 h2
  have hback : mid.reverse.dropWhile isPySpace = mid.reverse := by
    have := h3
    unfold pyStrip at this
    rw [hfront] at this
    have h4 : mid.reverse.dropWhile isPySpace = mid.reverse := by
      have := congrArg List.reverse this
      simpa using this
    exact h4
  unfold pyStrip
  have hnospace : isPySpace '-' = false := by decide
  rw [List.dropWhile_cons_of_neg (by simp [hnospace])]
  rw [List.reverse_cons]
  cases hrev : mid.reverse with
  | nil =>
    have : mid = [] := by simpa using congrArg List.reverse hrev
    subst this; simp at h1
  | cons a t =>
    have ha : isPySpace a = false := by
      rw [hrev] at hback
      by_contra hsp
      rw [Bool.not_eq_false] at hsp
      rw [List.dropWhile_cons_of_pos hsp] at hback
      have hlb := congrArg List.length hback
      have hle := length_dropWhile_le isPySpace t
      simp at hlb
      omega
    have hmid : mid = (a :: t).reverse := by
      have := congrArg List.reverse hrev
      simpa using this
    rw [List.cons_append, List.dropWhile_cons_of_neg (by simp [ha])]
    rw [hmid]
    simp

lemma pyFloat_neg_of_digit_head {mid : List Char} {c : Char} {q : ℚ}
    (h1 : mid.head? = some c) (h2 : c.isDigit = true) (h3 : pyStrip mid = mid)
    (h4 : pyFloat mid = some q) : pyFloat ('-' :: mid) = some (-q) := by
  have hsp : isPySpace c = false := isPySpace_eq_false_of_isDigit h2
  have hstrip : pyStrip ('-' :: mid) = '-' :: mid := pyStrip_cons_minus h1 hsp h3
  have hm : pyFloatUnsigned mid = some q := by
    unfold pyFloat at h4
    rw [h3, h1] at h4
    rw [if_neg (by simp [ne_minus_of_isDigit h2]),
      if_neg (by simp [ne_plus_of_isDigit h2])] at h4
    exact h4
  unfold pyFloat
  rw [hstrip]
  simp [hm]

/-- C1: in `_parse_numeric_value` with expected type percentage, a
non-empty value containing a percent sign is parsed with the percent signs
removed and the result divided by 100, a value without a percent sign is
parsed as a number and returned unchanged, and a value whose cleaned form
is not a numeric literal yields `none`. -/
theorem c1_percentage_coercion (v : List Char) (h : pyStrip v ≠ []) :
    ('%' ∈ pyStrip v →
      parseNumericValue v "percentage"
        = (pyFloat (pyStrip ((pyStrip v).filter (fun c => decide (c ≠ '%'))))).map
            (fun q => q / 100))
  ∧ ('%' ∉ pyStrip v →
      parseNumericValue v "percentage" = pyFloat (pyStrip v)) := by
  constructor
  · intro hm
    unfold parseNumericValue
    rw [if_neg h, if_neg (by decide : ¬("percentage" = "currency")),
      if_pos (by decide : ("percentage" = "percentage")), if_pos hm]
    by_cases hc : pyStrip ((pyStrip v).filter (fun c => decide (c ≠ '%'))) = []
    · rw [if_pos hc, hc, pyFloat_nil]
      rfl
    · rw [if_neg hc]
  · intro hm
    unfold parseNumericValue
    rw [if_neg h, if_neg (by decide : ¬("percentage" = "currency")),
      if_pos (by decide : ("percentage" = "percentage")), if_neg hm]

/-- C1 witness: "25%" parses to 25/100 = 0.25. -/
theorem c1_percentage_coercion_witness :
    parseNumericValue "25%".toList "percentage" = some ((25 : ℚ) / 100) := by
  have h := (c1_percentage_coercion "25%".toList (by decide)).1 (by decide)
  rw [h]; rfl

/-- C2: in `_parse_numeric_value` with expected type currency, an empty or
whitespace-only value yields `none`; otherwise currency symbols, commas
and spaces are removed and the parenthesised accounting form becomes a
leading minus sign before the cleaned string is parsed as a number (with
`none` on parse failure); a parenthesised value `(x)` parses to the
negation of `x`. -/
theorem c2_currency_coercion (v : List Char) :
    (pyStrip v = [] → parseNumericValue v "currency" = none)
  ∧ (pyStrip v ≠ [] →
      parseNumericValue v "currency" = pyFloat (cleanCurrency (pyStrip v)))
  ∧ (∀ mid, pyStrip v ≠ [] →
      stripCurrencySymbols (pyStrip v) = '(' :: (mid ++ [')']) →
      parseNumericValue v "currency" = pyFloat ('-' :: mid))
  ∧ (∀ mid c q, mid.head? = some c → c.isDigit = true → pyStrip mid = mid →
      pyFloat mid = some q → pyFloat ('-' :: mid) = some (-q)) := by
  refine ⟨fun h0 => ?_, fun h => ?_, fun mid h hpar => ?_,
    fun mid c q h1 h2 h3 h4 => pyFloat_neg_of_digit_head h1 h2 h3 h4⟩
  · unfold parseNumericValue
    rw [if_pos h0]
  · unfold parseNumericValue
    rw [if_neg h, if_pos (by decide : ("currency" = "currency"))]
    by_cases hc : cleanCurrency (pyStrip v) = []
    · rw [if_pos hc, hc, pyFloat_nil]
    · rw [if_neg hc]
  · unfold parseNumericValue
    rw [if_neg h, if_pos (by decide : ("currency" = "currency"))]
    have hlast : ('(' :: (mid ++ [')'])).getLast? = some ')' := by
      rw [show '(' :: (mid ++ [')']) = ('(' :: mid) ++ [')'] by simp]
      exact List.getLast?_concat _
    have hclean : cleanCurrency (pyStrip v) = '-' :: mid := by
      unfold cleanCurrency
      rw [hpar, if_pos ⟨by simp, hlast⟩]
      simp
    rw [hclean]
    rw [if_neg (by simp)]

/-- C2 witness: the accounting value "(1,000)" parses to -1000. -/
theorem c2_currency_coercion_witness :
    parseNumericValue "(1,000)".toList "currency" = some (-(1000 : ℚ)) := by
  have h := (c2_currency_coercion "(1,000)".toList).2.2.1 ['1', '0', '0', '0']
    (by decide) (by decide)
  rw [h]; rfl

/-! ## Sentence-accumulating chunker in extract_and_store_content
(src/backend/utils/pdf_processor.py, per-page text chunking loop) -/

/-- One iteration of the chunking loop: a sentence is appended (with a
trailing space) to the running chunk when the combined length stays below
400, otherwise the stripped running chunk is emitted (when non-empty) and
the sentence starts a fresh chunk. -/
def chunkStep (st : List (List Char) × List Char) (s : List Char) :
    List (List Char) × List Char :=
  if st.2.length + s.length < 400 then (st.1, st.2 ++ s ++ [' '])
  else if pyStrip st.2 = [] then (st.1, s ++ [' '])
  else (st.1 ++ [pyStrip st.2], s ++ [' '])

/-- The chunking loop over the sentences of one page, including the final
flush of the trailing chunk. -/
def chunkSentences (sentences : List (List Char)) : List (List Char) :=
  if pyStrip (sentences.foldl chunkStep ([], [])).2 = [] then
    (sentences.foldl chunkStep ([], [])).1
  else (sentences.foldl chunkStep ([], [])).1 ++ [pyStrip (sentences.foldl chunkStep ([], [])).2]

/-- Invariant of the running chunk: it is empty, short, or a single long
sentence with its trailing space. -/
def ChunkInv (ss : List (List Char)) (chunk : List Char) : Prop :=
  chunk = [] ∨ chunk.length ≤ 400 ∨ ∃ s ∈ ss, chunk = s ++ [' '] ∧ 400 ≤ s.length

/-- Invariant of the emitted chunks. -/
def ChunkOut (ss : List (List Char)) (out : List (List Char)) : Prop :=
  ∀ c ∈ out, c ≠ [] ∧
    (c.length ≤ 400 ∨ ∃ s ∈ ss, c = pyStrip (s ++ [' ']) ∧ 400 ≤ s.length)

lemma length_pyStrip_le (l : List Char) : (pyStrip l).length ≤ l.length := by
  have h1 := length_dropWhile_le isPySpace l
  have h2 := length_dropWhile_le isPySpace (l.dropWhile isPySpace).reverse
  have h2' : (List.dropWhile isPySpace (l.dropWhile isPySpace).reverse).length
      ≤ (l.dropWhile isPySpace).length := by simpa using h2
  simpa [pyStrip] using le_trans h2' h1

lemma flush_ok {ss : List (List Char)} {chunk : List Char} (hinv : ChunkInv ss chunk)
    (hne : pyStrip chunk ≠ []) :
    pyStrip chunk ≠ [] ∧
      ((pyStrip chunk).length ≤ 400 ∨
        ∃ s ∈ ss, pyStrip chunk = pyStrip (s ++ [' ']) ∧ 400 ≤ s.length) := by
  refine ⟨hne, ?_⟩
  rcases hinv with h0 | h0 | ⟨s, hs, heq, hlen⟩
  · subst h0; exact absurd rfl hne
  · exact Or.inl (le_trans (length_pyStrip_le chunk) h0)
  · exact Or.inr ⟨s, hs, by rw [heq], hlen⟩

lemma chunk_fold_inv (ss0 : List (List Char)) (rest : List (List Char)) :
    ∀ (out : List (List Char)) (chunk : List Char),
    (∀ s ∈ rest, s ∈ ss0) → ChunkOut ss0 out → ChunkInv ss0 chunk →
    ChunkOut ss0 (rest.foldl chunkStep (out, chunk)).1 ∧
      ChunkInv ss0 (rest.foldl chunkStep (out, chunk)).2 := by
  induction rest with
  | nil => exact fun out chunk _ h2 h3 => ⟨h2, h3⟩
  | cons s r ih =>
    intro out chunk hsub hout hinv
    simp only [List.foldl_cons]
    have hs0 : s ∈ ss0 := hsub s (by simp)
    have hr : ∀ x ∈ r, x ∈ ss0 := fun x hx => hsub x (by simp [hx])
    unfold chunkStep
    by_cases hfit : chunk.length + s.length < 400
    · rw [if_pos hfit]
      refine ih _ _ hr hout (Or.inr (Or.inl ?_))
      simp only [List.length_append, List.length_cons, List.length_nil]
      omega
    · rw [if_neg hfit]
      have hnewInv : ChunkInv ss0 (s ++ [' ']) := by
        by_cases hlong : 400 ≤ s.length
        · exact Or.inr (Or.inr ⟨s, hs0, rfl, hlong⟩)
        · refine Or.inr (Or.inl ?_)
          simp only [List.length_append, List.length_cons, List.length_nil]
          omega
      by_cases hemp : pyStrip chunk = []
      · rw [if_pos hemp]
        exact ih _ _ hr hout hnewInv
      · rw [if_neg hemp]
        refine ih _ _ hr ?_ hnewInv
        intro c hc
        rcases List.mem_append.1 hc with hm | hm
        · exact hout c hm
        · have : c = pyStrip chunk := by simpa using hm
          subst this
          exact flush_ok hinv hemp

/-- C10: every chunk produced by the sentence-accumulating chunker in
`extract_and_store_content` is non-empty after stripping, and a chunk may
exceed 400 characters only when it is the stripped form of a single
sentence of length at least 400 (so every chunk built from more than one
sentence is at most 400 characters long). -/
theorem c10_chunker_bounds (ss : List (List Char)) (c : List Char)
    (hc : c ∈ chunkSentences ss) :
    c ≠ [] ∧ (c.length ≤ 400 ∨ ∃ s ∈ ss, c = pyStrip (s ++ [' ']) ∧ 400 ≤ s.length) := by
  have h := chunk_fold_inv ss ss [] [] (fun s hs => hs)
    (by intro c hc; simp at hc) (Or.inl rfl)
  unfold chunkSentences at hc
  by_cases hf : pyStrip (ss.foldl chunkStep ([], [])).2 = []
  · rw [if_pos hf] at hc
    exact h.1 c hc
  · rw [if_neg hf] at hc
    rcases List.mem_append.1 hc with hm | hm
    · exact h.1 c hm
    · have : c = pyStrip (ss.foldl chunkStep ([], [])).2 := by simpa using hm
      subst this
      exact flush_ok h.2 hf

/-- C10 witness: chunking the two sentences of a short page yields the
single chunk containing both, which is non-empty and within the bound. -/
theorem c10_chunker_bounds_witness :
    "Hello there. Nice event.".toList ≠ [] ∧
      ("Hello there. Nice event.".toList.length ≤ 400 ∨
        ∃ s ∈ ["Hello there.".toList, "Nice event.".toList],
          "Hello there. Nice event.".toList = pyStrip (s ++ [' ']) ∧ 400 ≤ s.length) :=
  c10_chunker_bounds ["Hello there.".toList, "Nice event.".toList]
    "Hello there. Nice event.".toList (by decide)

/-! ## Decimal rendering of counters (Python f-string suffixes) -/

/-- Decimal digits of `n`, most significant first, with explicit fuel so
that the definition is structural (the fuel `n + 1` always suffices). -/
def natToStrAux : Nat → Nat → List Char
  | 0, _ => []
  | fuel + 1, n =>
    if n < 10 then [Nat.digitChar n]
    else natToStrAux fuel (n / 10) ++ [Nat.digitChar (n % 10)]

/-- Decimal rendering of a natural number, as used by Python f-strings
when appending numeric suffixes to names. -/
def natToStr (n : Nat) : List Char := natToStrAux (n + 1) n

/-- Decimal reading, the inverse of `natToStr`. -/
def strToNat (l : List Char) : Nat := l.foldl (fun a c => 10 * a + digVal c) 0

lemma digVal_digitChar {d : Nat} (h : d < 10) : digVal (Nat.digitChar d) = d := by
  interval_cases d <;> decide

lemma strToNat_concat (l : List Char) (c : Char) :
    strToNat (l ++ [c]) = 10 * strToNat l + digVal c := by
  simp [strToNat, List.foldl_append]

lemma strToNat_natToStrAux : ∀ (fuel n : Nat), n < fuel →
    strToNat (natToStrAux fuel n) = n := by
  intro fuel
  induction fuel with
  | zero => omega
  | succ f ih =>
    intro n hn
    unfold natToStrAux
    by_cases h10 : n < 10
    · rw [if_pos h10]
      have : strToNat [Nat.digitChar n] = digVal (Nat.digitChar n) := by
        simp [strToNat]
      rw [this, digVal_digitChar h10]
    · rw [if_neg h10]
      have hdiv : n / 10 < f := by
        have := Nat.div_lt_self (by omega : 0 < n) (by omega : 1 < 10)
        omega
      rw [strToNat_concat, ih _ hdiv, digVal_digitChar (Nat.mod_lt n (by omega))]
      omega

lemma strToNat_natToStr (n : Nat) : strToNat (natToStr n) = n :=
  strToNat_natToStrAux (n + 1) n (Nat.lt_succ_self n)

lemma natToStr_inj {a b : Nat} (h : natToStr a = natToStr b) : a = b := by
  have := congrArg strToNat h
  rwa [strToNat_natToStr, strToNat_natToStr] at this

lemma natToStr_ne_nil (n : Nat) : natToStr n ≠ [] := by
  unfold natToStr natToStrAux
  split
  · simp
  · simp

/-! ## Column-name de-duplication (_unique_names in
table_extraction/persistence.py, _fix_schema in
table_extraction/llm_schema.py) -/

/-- A Python dict from names to counters, modelled as an association
list. -/
def dictGet (d : List (List Char × Nat)) (k : List Char) : Nat :=
  match d.find? (fun p => decide (p.1 = k)) with
  | some p => p.2
  | none => 0

def dictSet (d : List (List Char × Nat)) (k : List Char) (v : Nat) :
    List (List Char × Nat) :=
  (k, v) :: d.filter (fun p => decide (p.1 ≠ k))

def colDefault : List Char := ['c', 'o', 'l']

def noneLower : List Char := ['n', 'o', 'n', 'e']

/-- Base name in `_unique_names`: the stripped raw name, or "col" when it
is blank or a spelling of None. -/
def uniqueBase (raw : List Char) : List Char :=
  if pyStrip raw = [] ∨ (pyStrip raw).map Char.toLower = noneLower then colDefault
  else pyStrip raw

/-- One iteration of the `_unique_names` loop. -/
def uniqueStep (st : List (List Char × Nat) × List (List Char)) (raw : List Char) :
    List (List Char × Nat) × List (List Char) :=
  (dictSet st.1 (uniqueBase raw) (dictGet st.1 (uniqueBase raw) + 1),
   st.2 ++ [if dictGet st.1 (uniqueBase raw) = 0 then uniqueBase raw
            else uniqueBase raw ++ '_' :: natToStr (dictGet st.1 (uniqueBase raw))])

/-- Model of `_unique_names` (table_extraction/persistence.py). -/
def uniqueNames (names : List (List Char)) : List (List Char) :=
  (names.foldl uniqueStep ([], [])).2

/-- Base name in `_fix_schema`: the stripped raw name, or "col_i" (with
the column index) when it is blank or a spelling of None. -/
def fixBase (i : Nat) (raw : List Char) : List Char :=
  if pyStrip raw = [] ∨ (pyStrip raw).map Char.toLower = noneLower then
    colDefault ++ '_' :: natToStr i
  else pyStrip raw

/-- One iteration of the `_fix_schema` column loop (name handling only;
the type and description defaulting on the same line touch no names). -/
def fixStep (st : List (List Char × Nat) × List (List Char)) (p : Nat × List Char) :
    List (List Char × Nat) × List (List Char) :=
  (dictSet st.1 (fixBase p.1 p.2) (dictGet st.1 (fixBase p.1 p.2) + 1),
   st.2 ++ [if dictGet st.1 (fixBase p.1 p.2) = 0 then fixBase p.1 p.2
            else fixBase p.1 p.2 ++ '_' :: natToStr (dictGet st.1 (fixBase p.1 p.2))])

/-- Model of the column-name part of `_fix_schema`
(table_extraction/llm_schema.py). -/
def fixSchemaNames (names : List (List Char)) : List (List Char) :=
  (names.enum.foldl fixStep ([], [])).2

lemma uniqueBase_ne_nil (raw : List Char) : uniqueBase raw ≠ [] := by
  unfold uniqueBase
  split
  · decide
  · rename_i h
    rw [not_or] at h
    exact h.1

lemma fixBase_ne_nil (i : Nat) (raw : List Char) : fixBase i raw ≠ [] := by
  unfold fixBase
  split
  · simp [colDefault]
  · rename_i h
    rw [not_or] at h
    exact h.1

lemma unique_fold_shape (rest : List (List Char)) :
    ∀ (st : List (List Char × Nat) × List (List Char)),
    ((rest.foldl uniqueStep st).2).length = st.2.length + rest.length ∧
    (∀ c ∈ (rest.foldl uniqueStep st).2, c ∈ st.2 ∨ c ≠ []) := by
  induction rest with
  | nil => intro st; exact ⟨by simp, fun c hc => Or.inl hc⟩
  | cons raw r ih =>
    intro st
    simp only [List.foldl_cons]
    refine ⟨?_, ?_⟩
    · have h := (ih (uniqueStep st raw)).1
      rw [h]
      simp [uniqueStep]
      omega
    · intro c hc
      rcases (ih (uniqueStep st raw)).2 c hc with hm | hm
      · simp only [uniqueStep] at hm
        rcases List.mem_append.1 hm with h1 | h1
        · exact Or.inl h1
        · right
          have hbase := uniqueBase_ne_nil raw
          rw [List.mem_singleton] at h1
          rw [h1]
          split
          · exact hbase
          · simp
      · exact Or.inr hm

lemma fix_fold_shape (rest : List (Nat × List Char)) :
    ∀ (st : List (List Char × Nat) × List (List Char)),
    ((rest.foldl fixStep st).2).length = st.2.length + rest.length ∧
    (∀ c ∈ (rest.foldl fixStep st).2, c ∈ st.2 ∨ c ≠ []) := by
  induction rest with
  | nil => intro st; exact ⟨by simp, fun c hc => Or.inl hc⟩
  | cons p r ih =>
    intro st
    simp only [List.foldl_cons]
    refine ⟨?_, ?_⟩
    · have h := (ih (fixStep st p)).1
      rw [h]
      simp [fixStep]
      omega
    · intro c hc
      rcases (ih (fixStep st p)).2 c hc with hm | hm
      · simp only [fixStep] at hm
        rcases List.mem_append.1 hm with h1 | h1
        · exact Or.inl h1
        · right
          have hbase := fixBase_ne_nil p.1 p.2
          rw [List.mem_singleton] at h1
          rw [h1]
          split
          · exact hbase
          · simp
      · exact Or.inr hm

/-- C9 counterexample: on the input [a, a_1, a] both de-duplication
routines return the name a_1 twice, so the returned names are not
pairwise distinct. -/
theorem c9_dedup_not_distinct :
    ¬ (uniqueNames [['a'], ['a', '_', '1'], ['a']]).Nodup ∧
    ¬ (fixSchemaNames [['a'], ['a', '_', '1'], ['a']]).Nodup := by
  constructor <;> decide

/-- C9 amended: both de-duplication routines preserve the number of
columns and return only non-empty names; pairwise distinctness, however,
does not hold in general (see the counterexample). -/
theorem c9_dedup_length_nonempty (names : List (List Char)) :
    ((uniqueNames names).length = names.length ∧
      ∀ c ∈ uniqueNames names, c ≠ []) ∧
    ((fixSchemaNames names).length = names.length ∧
      ∀ c ∈ fixSchemaNames names, c ≠ []) := by
  refine ⟨⟨?_, ?_⟩, ⟨?_, ?_⟩⟩
  · simpa using (unique_fold_shape names ([], [])).1
  · intro c hc
    rcases (unique_fold_shape names ([], [])).2 c hc with hm | hm
    · simp at hm
    · exact hm
  · have h := (fix_fold_shape names.enum ([], [])).1
    simpa [uniqueNames, List.enum_length] using h
  · intro c hc
    rcases (fix_fold_shape names.enum ([], [])).2 c hc with hm | hm
    · simp at hm
    · exact hm

/-- C9 amended witness: a two-column input with one blank name keeps its
length and yields a non-empty first name. -/
theorem c9_dedup_length_nonempty_witness :
    (uniqueNames [['a'], []]).length = [['a'], []].length ∧ (['a'] : List Char) ≠ [] :=
  ⟨(c9_dedup_length_nonempty [['a'], []]).1.1,
   (c9_dedup_length_nonempty [['a'], []]).1.2 ['a'] (by decide)⟩

/-! ## Table stores: PDFProcessor.store_table (src/backend/routes/chat.py)
and save_table (table_extraction/persistence.py)

The relational database is modelled as an association list from table
names to the stored row grid.  Schema inference and per-cell type
conversion only shape the rows placed in the newly created table and
touch no other table, so the payload of the new table is kept as the raw
grid; exceptions from the database driver are outside the model. -/

abbrev TableRows := List (List (List Char))

abbrev DBState := List (List Char × TableRows)

def tableNames (db : DBState) : List (List Char) := db.map Prod.fst

/-- PDFProcessor._table_exists: reflection of the table name against the
database. -/
def tableExists (db : DBState) (n : List Char) : Bool := decide (n ∈ tableNames db)

def dbLookup (db : DBState) (n : List Char) : Option TableRows :=
  match db.find? (fun p => decide (p.1 = n)) with
  | some p => some p.2
  | none => none

/-- The backquote character removed by the name sanitizer. -/
def backquoteChar : Char := Char.ofNat 96

/-- Name sanitisation in store_table: spaces and dots become
underscores, backquotes are removed. -/
def sanitizeTableName (n : List Char) : List Char :=
  (n.map (fun c => if c = ' ' ∨ c = '.' then '_' else c)).filter
    (fun c => decide (c ≠ backquoteChar))

/-- The candidate names tried by the while loop in store_table, in
order: the base name, then base_1, base_2, ...  The loop stops at the
first name not present, so `db.length + 1` suffixed candidates always
suffice. -/
def storeCandidates (db : DBState) (base : List Char) : List (List Char) :=
  base :: (List.range (db.length + 1)).map (fun k => base ++ '_' :: natToStr (k + 1))

/-- The name chosen by the while loop: the first candidate that does not
exist yet. -/
def chooseTableName (db : DBState) (base : List Char) : List Char :=
  match (storeCandidates db base).find? (fun c => ! tableExists db c) with
  | some c => c
  | none => base

/-- Model of PDFProcessor.store_table: reject an empty grid, sanitise the
name, walk to the first fresh suffixed name, and create the new table
there.  No existing table is dropped or modified. -/
def store_table (db : DBState) (tableData : TableRows) (tableName : List Char) :
    DBState × Bool :=
  if tableData.head? = none ∨ tableData.head? = some [] then (db, false)
  else ((chooseTableName db (sanitizeTableName tableName), tableData) :: db, true)

/-- Model of save_table (table_extraction/persistence.py): an existing
table under the schema table name is dropped, then the table is created
anew with the dataframe rows. -/
def save_table (db : DBState) (df : TableRows) (tableName : List Char) : DBState :=
  (tableName, df) :: db.filter (fun p => decide (p.1 ≠ tableName))

lemma natToStr_length_pos (n : Nat) : 0 < (natToStr n).length :=
  List.length_pos.2 (natToStr_ne_nil n)

lemma storeCandidates_nodup (db : DBState) (base : List Char) :
    (storeCandidates db base).Nodup := by
  unfold storeCandidates
  refine List.nodup_cons.2 ⟨?_, ?_⟩
  · intro h
    simp only [List.mem_map, List.mem_range] at h
    obtain ⟨k, _, heq⟩ := h
    have hl := congrArg List.length heq
    have hp := natToStr_length_pos (k + 1)
    simp only [List.length_append, List.length_cons] at hl
    omega
  · refine List.Nodup.map ?_ (List.nodup_range _)
    intro a b h
    have h2 := List.append_cancel_left h
    have h3 : natToStr (a + 1) = natToStr (b + 1) := by
      simpa using h2
    have := natToStr_inj h3
    omega

lemma exists_fresh_candidate (db : DBState) (base : List Char) :
    ∃ c ∈ storeCandidates db base, c ∉ tableNames db := by
  by_contra h
  push_neg at h
  have hsub : storeCandidates db base ⊆ tableNames db := h
  have h1 : (storeCandidates db base).toFinset.card = (storeCandidates db base).length :=
    List.toFinset_card_of_nodup (storeCandidates_nodup db base)
  have h2 : (storeCandidates db base).toFinset ⊆ (tableNames db).toFinset := by
    intro x hx
    simp only [List.mem_toFinset] at hx ⊢
    exact hsub hx
  have h3 := Finset.card_le_card h2
  have h4 := List.toFinset_card_le (tableNames db)
  have h5 : (tableNames db).length = db.length := by simp [tableNames]
  have h6 : (storeCandidates db base).length = db.length + 2 := by
    simp [storeCandidates]
  omega

lemma chooseTableName_spec (db : DBState) (base : List Char) :
    chooseTableName db base ∉ tableNames db ∧
      ∃ l1 l2, storeCandidates db base = l1 ++ chooseTableName db base :: l2 ∧
        ∀ y ∈ l1, y ∈ tableNames db := by
  obtain ⟨c, hc, hfresh⟩ := exists_fresh_candidate db base
  have hex : ∃ x ∈ storeCandidates db base, (! tableExists db x) = true := by
    refine ⟨c, hc, ?_⟩
    simp [tableExists, hfresh]
  have hsome : ((storeCandidates db base).find? (fun c => ! tableExists db c)).isSome := by
    rw [List.find?_isSome]
    exact hex
  obtain ⟨x, hx⟩ := Option.isSome_iff_exists.1 hsome
  have hspec := List.find?_eq_some.1 hx
  have hchoose : chooseTableName db base = x := by
    unfold chooseTableName
    rw [hx]
  rw [hchoose]
  refine ⟨?_, ?_⟩
  · have := hspec.1
    simpa [tableExists] using this
  · obtain ⟨l1, l2, heq, hall⟩ := hspec.2
    refine ⟨l1, l2, heq, fun y hy => ?_⟩
    have := hall y hy
    simpa [tableExists] using this

lemma dbLookup_cons_ne (db : DBState) (n t : List Char) (rows : TableRows)
    (h : t ≠ n) : dbLookup ((n, rows) :: db) t = dbLookup db t := by
  unfold dbLookup
  rw [List.find?_cons_of_neg]
  simp [Ne.symm h]

/-- C3 amended: PDFProcessor.store_table (routes/chat.py) never drops or
overwrites an existing table: it walks to the first candidate name (the
sanitised base, then base_1, base_2, ...) absent from the database,
creates the new table there, and leaves every previously existing table
and its rows unchanged.  The save_table path of the separate
table_extraction pipeline, however, drops and recreates an existing
same-named table (see the counterexample). -/
theorem c3_store_table_fresh_name (db : DBState) (data : TableRows)
    (nameRaw : List Char) (hdata : ¬(data.head? = none ∨ data.head? = some [])) :
    (store_table db data nameRaw).2 = true
  ∧ chooseTableName db (sanitizeTableName nameRaw) ∉ tableNames db
  ∧ dbLookup (store_table db data nameRaw).1
      (chooseTableName db (sanitizeTableName nameRaw)) = some data
  ∧ (∀ t ∈ tableNames db, dbLookup (store_table db data nameRaw).1 t = dbLookup db t)
  ∧ (∃ l1 l2, storeCandidates db (sanitizeTableName nameRaw)
        = l1 ++ chooseTableName db (sanitizeTableName nameRaw) :: l2 ∧
        ∀ y ∈ l1, y ∈ tableNames db) := by
  have hspec := chooseTableName_spec db (sanitizeTableName nameRaw)
  have hdb : (store_table db data nameRaw).1
      = (chooseTableName db (sanitizeTableName nameRaw), data) :: db := by
    unfold store_table
    rw [if_neg hdata]
  have hflag : (store_table db data nameRaw).2 = true := by
    unfold store_table
    rw [if_neg hdata]
  refine ⟨hflag, hspec.1, ?_, ?_, hspec.2⟩
  · rw [hdb]
    unfold dbLookup
    rw [List.find?_cons_of_pos]
    simp
  · intro t ht
    rw [hdb]
    exact dbLookup_cons_ne db _ t data (fun hteq => hspec.1 (hteq ▸ ht))

/-- C3 amended witness: storing a one-row grid under the name t while a
table t exists creates t_1 and leaves t unchanged. -/
theorem c3_store_table_fresh_name_witness :
    (store_table [(['t'], [[['x']]])] [[['y']]] ['t']).2 = true
  ∧ chooseTableName [(['t'], [[['x']]])] (sanitizeTableName ['t'])
      ∉ tableNames [(['t'], [[['x']]])]
  ∧ dbLookup (store_table [(['t'], [[['x']]])] [[['y']]] ['t']).1
      (chooseTableName [(['t'], [[['x']]])] (sanitizeTableName ['t'])) = some [[['y']]]
  ∧ (∀ t ∈ tableNames [(['t'], [[['x']]])],
      dbLookup (store_table [(['t'], [[['x']]])] [[['y']]] ['t']).1 t
        = dbLookup [(['t'], [[['x']]])] t)
  ∧ (∃ l1 l2, storeCandidates [(['t'], [[['x']]])] (sanitizeTableName ['t'])
        = l1 ++ chooseTableName [(['t'], [[['x']]])] (sanitizeTableName ['t']) :: l2 ∧
        ∀ y ∈ l1, y ∈ tableNames [(['t'], [[['x']]])]) :=
  c3_store_table_fresh_name [(['t'], [[['x']]])] [[['y']]] ['t'] (by decide)

/-- C3 counterexample: save_table in the table_extraction pipeline, also
reached from a PDF upload via process_pdf_for_tables, replaces the rows
of an existing same-named table instead of creating a suffixed copy. -/
theorem c3_save_table_overwrites :
    dbLookup (save_table [(['t'], [[['x']]])] [[['y']]] ['t']) ['t']
      = some [[['y']]] ∧
    dbLookup [(['t'], [[['x']]])] ['t'] = some [[['x']]] ∧
    dbLookup (save_table [(['t'], [[['x']]])] [[['y']]] ['t']) ['t']
      ≠ dbLookup [(['t'], [[['x']]])] ['t'] := by
  refine ⟨by decide, by decide, by decide⟩

/-! ## ManagerAgent routing (src/backend/agents/manager_agent.py)

The LLM reply is an oracle: either a parsed JSON object with the status
and sub-query fields, or a parse/transport failure handled by the except
clause.  The LangGraph workflow is modelled by the node sequence its
edges produce from the routing flags. -/

/-- Outcome of the query-analyzer LLM call after JSON extraction. -/
inductive ManagerParse where
  | ok (status ragSub tableSub : String)
  | parseFailure

/-- Python `str.lower()`. -/
def lowerStr (s : String) : String := String.mk (s.toList.map Char.toLower)

/-- Python `a or b` on strings: the first operand unless it is empty. -/
def pyOr (a b : String) : String := if a = "" then b else a

/-- The per-request routing state set by `_manager_node`: query, routing
flags and sub-queries (both sub-queries start out empty, matching the
getattr defaults). -/
structure AgentState where
  query : String
  needs_table : Bool
  needs_rag : Bool
  table_sub_query : String
  rag_sub_query : String
deriving DecidableEq

/-- Model of `ManagerAgent._manager_node`: flag and sub-query assignment
from the parsed decision, defaulting to RAG with the original query on
an unknown decision or a parse failure. -/
def managerNode (query : String) (r : ManagerParse) : AgentState :=
  match r with
  | .parseFailure => ⟨query, false, true, "", query⟩
  | .ok status ragSub tableSub =>
    if lowerStr status = "table" then ⟨query, true, false, pyOr tableSub query, ""⟩
    else if lowerStr status = "rag" then ⟨query, false, true, "", pyOr ragSub query⟩
    else if lowerStr status = "both" then
      ⟨query, true, true, pyOr tableSub query, pyOr ragSub query⟩
    else ⟨query, false, true, "", query⟩

inductive GraphNode where
  | table
  | rag
  | combiner
deriving DecidableEq

/-- Model of `ManagerAgent._decide_route`. -/
def decideRoute (st : AgentState) : String :=
  if st.needs_table ∧ st.needs_rag then "both"
  else if st.needs_table then "table_only"
  else if st.needs_rag then "rag_only"
  else "end"

/-- Model of `ManagerAgent._after_table_route`. -/
def afterTableRoute (st : AgentState) : String :=
  if st.needs_rag then "to_rag" else "to_combiner"

/-- The sequence of nodes the compiled workflow invokes after the manager
node, following the conditional edges of `_create_workflow`: both and
table_only enter the table node, the after-table edge picks RAG or the
combiner, rag_only enters the RAG node which always feeds the combiner,
and end finishes immediately. -/
def nodesInvoked (st : AgentState) : List GraphNode :=
  if decideRoute st = "table_only" ∨ decideRoute st = "both" then
    GraphNode.table ::
      (if afterTableRoute st = "to_rag" then [GraphNode.rag, GraphNode.combiner]
       else [GraphNode.combiner])
  else if decideRoute st = "rag_only" then [GraphNode.rag, GraphNode.combiner]
  else []

/-- C5 counterexample: for the decision table the workflow does not
invoke the table node only; the combiner node runs afterwards as well. -/
theorem c5_table_route_runs_combiner :
    nodesInvoked (managerNode "q" (ManagerParse.ok "table" "" ""))
      = [GraphNode.table, GraphNode.combiner] ∧
    nodesInvoked (managerNode "q" (ManagerParse.ok "table" "" ""))
      ≠ [GraphNode.table] := by
  refine ⟨by decide, by decide⟩

/-- C5 amended: decision table invokes the table node and then the
combiner; rag invokes the RAG node and then the combiner; both invokes
the table node, the RAG node and then the combiner; an unknown decision
or a parse failure routes to the RAG node (then the combiner) with the
original query as the RAG sub-query; with neither flag set the workflow
ends without invoking any node. -/
theorem c5_routing_decision (query status ragSub tableSub : String) :
    (lowerStr status = "table" →
      nodesInvoked (managerNode query (ManagerParse.ok status ragSub tableSub))
        = [GraphNode.table, GraphNode.combiner])
  ∧ (lowerStr status = "rag" →
      nodesInvoked (managerNode query (ManagerParse.ok status ragSub tableSub))
        = [GraphNode.rag, GraphNode.combiner])
  ∧ (lowerStr status = "both" →
      nodesInvoked (managerNode query (ManagerParse.ok status ragSub tableSub))
        = [GraphNode.table, GraphNode.rag, GraphNode.combiner])
  ∧ (lowerStr status ≠ "table" → lowerStr status ≠ "rag" → lowerStr status ≠ "both" →
      nodesInvoked (managerNode query (ManagerParse.ok status ragSub tableSub))
          = [GraphNode.rag, GraphNode.combiner]
        ∧ (managerNode query (ManagerParse.ok status ragSub tableSub)).rag_sub_query
          = query)
  ∧ (nodesInvoked (managerNode query ManagerParse.parseFailure)
        = [GraphNode.rag, GraphNode.combiner]
      ∧ (managerNode query ManagerParse.parseFailure).rag_sub_query = query)
  ∧ (∀ st : AgentState, st.needs_table = false → st.needs_rag = false →
      nodesInvoked st = []) := by
  refine ⟨fun h => ?_, fun h => ?_, fun h => ?_, fun h1 h2 h3 => ?_, ⟨rfl, rfl⟩,
    fun st h1 h2 => ?_⟩
  · simp [managerNode, h, nodesInvoked, decideRoute, afterTableRoute]
  · simp [managerNode, h, nodesInvoked, decideRoute, afterTableRoute]
  · simp [managerNode, h, nodesInvoked, decideRoute, afterTableRoute]
  · simp [managerNode, h1, h2, h3, nodesInvoked, decideRoute, afterTableRoute]
  · simp [nodesInvoked, decideRoute, afterTableRoute, h1, h2]

/-- C5 amended witness: a both decision invokes table, RAG and combiner
in that order. -/
theorem c5_routing_decision_witness :
    nodesInvoked (managerNode "q" (ManagerParse.ok "Both" "r" "t"))
      = [GraphNode.table, GraphNode.rag, GraphNode.combiner] :=
  (c5_routing_decision "q" "Both" "r" "t").2.2.1 (by decide)

/-! ## TableAgent.process_query (src/backend/agents/table_agent.py)

SQL generation and execution are LLM/database oracles; the guard of
interest is the substring containment check. -/

/-- Python substring containment `needle in hay`. -/
def containsSubstr (hay needle : String) : Bool :=
  hay.toList.tails.any (fun t => needle.toList.isPrefixOf t)

def cannotGenerateMarker : String := "Cannot generate SQL"

/-- Model of `TableAgent.process_query` after generation: the pair of the
returned text and the SQL actually passed to execution (`none` when no
SQL is executed).  `schemaOk` is the guard on the loaded schema,
`genSql` the generation result, `execResult` the execution oracle. -/
def tableAgentProcessQuery (schemaOk : Bool) (genSql : String)
    (execResult : String → String) (query : String) : String × Option String :=
  if ¬ schemaOk then ("Error: Could not load schema for query: " ++ query, none)
  else if containsSubstr genSql cannotGenerateMarker then
    ("Unable to process data query: " ++ query, none)
  else (execResult genSql, some genSql)

/-- C6: when the generated SQL contains the marker Cannot generate SQL,
process_query returns the fixed unable-to-process message and executes
nothing; otherwise the generated SQL is passed to execution. -/
theorem c6_cannot_generate_sql_guard (genSql query : String)
    (execResult : String → String) :
    (containsSubstr genSql cannotGenerateMarker = true →
      tableAgentProcessQuery true genSql execResult query
        = ("Unable to process data query: " ++ query, none))
  ∧ (containsSubstr genSql cannotGenerateMarker = false →
      tableAgentProcessQuery true genSql execResult query
        = (execResult genSql, some genSql)) := by
  constructor
  · intro h
    simp [tableAgentProcessQuery, h]
  · intro h
    simp [tableAgentProcessQuery, h]

/-- C6 witness: a generation reply containing the marker yields the fixed
message and no executed SQL. -/
theorem c6_cannot_generate_sql_guard_witness :
    tableAgentProcessQuery true "Cannot generate SQL for this request" id "q"
      = ("Unable to process data query: " ++ "q", none) :=
  (c6_cannot_generate_sql_guard "Cannot generate SQL for this request" "q" id).1
    (by decide)

/-! ## Uniform exception envelopes (C7): ManagerAgent.process_query,
Orchestrator.process_query, ChatbotAgent.answer_question -/

/-- Outcome of a Python call: a value or a raised exception message. -/
inductive PyOutcome (α : Type) where
  | ok (value : α)
  | raises (msg : String)

/-- The response dict fields common to the three query entry points (the
metadata / source-count fields carry no error information and are
elided). -/
structure AgentResponse where
  answer : String
  success : Bool
  error : Option String
deriving DecidableEq

def managerErrorAnswer : String :=
  "I encountered an error while processing your question. Please try again."

def orchestratorErrorAnswer : String :=
  "An error occurred while processing your question. Please try again."

def ragErrorAnswer : String :=
  "I" ++ String.singleton (Char.ofNat 39)
    ++ "m sorry, I encountered an error while processing your question. Please try again."

def orchestratorUnavailableAnswer : String :=
  "Service temporarily unavailable. Please configure PINECONE_API_KEY and GEMINI_API_KEY environment variables to enable AI functionality."

/-- Model of `ManagerAgent.process_query`: the workflow invocation either
yields a result dict (whose response key may be absent) or raises. -/
def managerProcessQuery (wf : PyOutcome (Option String)) : AgentResponse :=
  match wf with
  | .ok r => ⟨r.getD "No response generated", true, none⟩
  | .raises e => ⟨managerErrorAnswer, false, some e⟩

/-- Model of `ChatbotAgent.answer_question`: retrieval plus LLM synthesis
either yields an answer text or raises. -/
def ragAnswerQuestion (call : PyOutcome String) : AgentResponse :=
  match call with
  | .ok t => ⟨t, true, none⟩
  | .raises e => ⟨ragErrorAnswer, false, some e⟩

/-- Model of `Orchestrator.process_query`: without agents a canned
unavailable response; otherwise the delegate result is passed through,
and a raised exception is converted to the apology envelope. -/
def orchestratorProcessQuery (isFunctional : Bool)
    (delegate : PyOutcome AgentResponse) : AgentResponse :=
  if ¬ isFunctional then
    ⟨orchestratorUnavailableAnswer, false, some "No agents initialized - missing API configuration"⟩
  else
    match delegate with
    | .ok r => r
    | .raises e => ⟨orchestratorErrorAnswer, false, some e⟩

/-- C7: whenever the underlying processing raises, each of the three
query entry points returns (rather than propagates) a dict with success
false, the exception text in the error field and its fixed user-facing
apology string as the answer. -/
theorem c7_exception_apology (e : String) :
    managerProcessQuery (PyOutcome.raises e) = ⟨managerErrorAnswer, false, some e⟩
  ∧ orchestratorProcessQuery true (PyOutcome.raises e)
      = ⟨orchestratorErrorAnswer, false, some e⟩
  ∧ ragAnswerQuestion (PyOutcome.raises e) = ⟨ragErrorAnswer, false, some e⟩ :=
  ⟨rfl, rfl, rfl⟩

/-! ## Schema-registry lifecycle in extract_and_store_content and
_store_table_with_schema (src/backend/utils/pdf_processor.py)

Row validation (numeric pre-parsing plus pydantic) decides which rows
survive; it is modelled as an oracle per row.  The database insert can
raise, which the except clause converts into a False return; this is the
`insertOk` oracle.  Events record the order of registry writes and row
inserts. -/

/-- One schema-registry entry, as written to the table_schema.json
file. -/
structure RegistryEntry where
  schemaMap : List (String × String)
  description : String
  pdf_uuid : String
  created_at : String
  status : String
  rows_stored : Option Nat
deriving DecidableEq

abbrev Registry := List (String × RegistryEntry)

def regSet (reg : Registry) (k : String) (v : RegistryEntry) : Registry :=
  (k, v) :: reg.filter (fun p => decide (p.1 ≠ k))

def regGet (reg : Registry) (k : String) : Option RegistryEntry :=
  match reg.find? (fun p => decide (p.1 = k)) with
  | some p => some p.2
  | none => none

def regStatus (reg : Registry) (k : String) : Option String :=
  (regGet reg k).map (fun e => e.status)

def regRowsStored (reg : Registry) (k : String) : Option (Option Nat) :=
  (regGet reg k).map (fun e => e.rows_stored)

def regDescription (reg : Registry) (k : String) : Option String :=
  (regGet reg k).map (fun e => e.description)

/-- Observable steps of storing one table. -/
inductive StoreEvent where
  | registrySet (name status : String)
  | insertRows (name : String) (count : Nat)
deriving DecidableEq

abbrev Row := List String

/-- The rows surviving the validation loop of
`_store_table_with_schema`. -/
def validateRows (rows : List Row) (validate : Row → Option Row) : List Row :=
  rows.filterMap validate

/-- Model of `_store_table_with_schema`: validated rows are inserted when
present; only after a successful insert are the detailed description, the
complete status and the stored-row count written back to the registry
entry (when it exists); with no valid rows, or a failed insert, the
method returns False and writes nothing. -/
def storeTableWithSchema (reg : Registry) (name detailedDesc : String)
    (rows : List Row) (validate : Row → Option Row) (insertOk : Bool) :
    Registry × Bool × List StoreEvent :=
  if validateRows rows validate ≠ [] then
    if insertOk then
      match regGet reg name with
      | some entry =>
        (regSet reg name
          { entry with
            description := detailedDesc
            status := "complete"
            rows_stored := some (validateRows rows validate).length },
         true,
         [StoreEvent.insertRows name (validateRows rows validate).length,
          StoreEvent.registrySet name "complete"])
      | none =>
        (reg, true, [StoreEvent.insertRows name (validateRows rows validate).length])
    else (reg, false, [])
  else (reg, false, [])

/-- Model of the per-table lifecycle in `extract_and_store_content`: the
registry entry is created (and saved) with status processing when the
table is first analysed, before `_store_table_with_schema` runs. -/
def processTableLifecycle (reg : Registry) (name : String)
    (schemaMap : List (String × String)) (pdfUuid createdAt desc detailedDesc : String)
    (rows : List Row) (validate : Row → Option Row) (insertOk : Bool) :
    Registry × List StoreEvent :=
  (((storeTableWithSchema
      (regSet reg name ⟨schemaMap, desc, pdfUuid, createdAt, "processing", none⟩)
      name detailedDesc rows validate insertOk)).1,
   StoreEvent.registrySet name "processing"
     :: (storeTableWithSchema
          (regSet reg name ⟨schemaMap, desc, pdfUuid, createdAt, "processing", none⟩)
          name detailedDesc rows validate insertOk).2.2)

lemma regGet_regSet (reg : Registry) (k : String) (v : RegistryEntry) :
    regGet (regSet reg k v) k = some v := by
  unfold regGet regSet
  have h : List.find? (fun p => decide (p.1 = k))
      ((k, v) :: List.filter (fun p => decide (p.1 ≠ k)) reg) = some (k, v) :=
    List.find?_cons_of_pos _ (by simp)
  rw [h]

/-- C4: for every table processed by `extract_and_store_content`, the
registry entry is created with status processing as the first observable
step, before any rows are inserted; the complete status is written only
after at least one validated row was successfully inserted, together with
the detailed description and a rows_stored count equal to the number of
validated rows; with no valid rows the status never becomes complete. -/
theorem c4_registry_lifecycle (reg : Registry) (name : String)
    (schemaMap : List (String × String)) (pdfUuid createdAt desc detailedDesc : String)
    (rows : List Row) (validate : Row → Option Row) (insertOk : Bool) :
    ((processTableLifecycle reg name schemaMap pdfUuid createdAt desc detailedDesc
        rows validate insertOk).2.head?
      = some (StoreEvent.registrySet name "processing"))
  ∧ (StoreEvent.registrySet name "complete"
        ∈ (processTableLifecycle reg name schemaMap pdfUuid createdAt desc detailedDesc
            rows validate insertOk).2
      ↔ (validateRows rows validate ≠ [] ∧ insertOk = true))
  ∧ (StoreEvent.registrySet name "complete"
        ∈ (processTableLifecycle reg name schemaMap pdfUuid createdAt desc detailedDesc
            rows validate insertOk).2 →
      (processTableLifecycle reg name schemaMap pdfUuid createdAt desc detailedDesc
          rows validate insertOk).2
        = [StoreEvent.registrySet name "processing",
           StoreEvent.insertRows name (validateRows rows validate).length,
           StoreEvent.registrySet name "complete"])
  ∧ (regStatus (processTableLifecycle reg name schemaMap pdfUuid createdAt desc
        detailedDesc rows validate insertOk).1 name = some "complete"
      ↔ (validateRows rows validate ≠ [] ∧ insertOk = true))
  ∧ (validateRows rows validate ≠ [] → insertOk = true →
      regRowsStored (processTableLifecycle reg name schemaMap pdfUuid createdAt desc
          detailedDesc rows validate insertOk).1 name
        = some (some (validateRows rows validate).length)
      ∧ regDescription (processTableLifecycle reg name schemaMap pdfUuid createdAt desc
          detailedDesc rows validate insertOk).1 name = some detailedDesc)
  ∧ (validateRows rows validate = [] →
      regStatus (processTableLifecycle reg name schemaMap pdfUuid createdAt desc
          detailedDesc rows validate insertOk).1 name = some "processing") := by
  have hget := regGet_regSet reg name
    ⟨schemaMap, desc, pdfUuid, createdAt, "processing", none⟩
  by_cases hv : validateRows rows validate = []
  · refine ⟨?_, ?_, ?_, ?_, ?_, ?_⟩ <;>
      simp [processTableLifecycle, storeTableWithSchema, hv, regStatus,
        regGet_regSet, regRowsStored, regDescription]
  · by_cases hins : insertOk = true
    · subst hins
      refine ⟨?_, ?_, ?_, ?_, ?_, ?_⟩ <;>
        simp [processTableLifecycle, storeTableWithSchema, hv, hget, regStatus,
          regGet_regSet, regRowsStored, regDescription]
    · rw [Bool.not_eq_true] at hins
      subst hins
      refine ⟨?_, ?_, ?_, ?_, ?_, ?_⟩ <;>
        simp [processTableLifecycle, storeTableWithSchema, hv, regStatus,
          regGet_regSet, regRowsStored, regDescription]

/-- C4 witness: one valid row with a successful insert yields the
complete status with rows_stored one and the detailed description. -/
theorem c4_registry_lifecycle_witness :
    regRowsStored (processTableLifecycle [] "t" [] "u" "now" "d" "dd"
        [["r"]] some true).1 "t" = some (some 1)
  ∧ regDescription (processTableLifecycle [] "t" [] "u" "now" "d" "dd"
        [["r"]] some true).1 "t" = some "dd" :=
  (c4_registry_lifecycle [] "t" [] "u" "now" "d" "dd" [["r"]] some true).2.2.2.2.1
    (by decide) rfl

/-! ## DataClearService.clear_all_data
(src/backend/services/clear_data_service.py)

Pinecone, MySQL and the filesystem are modelled as worlds of oracle
outcomes read off in the order the code consults them. -/

structure PineconeWorld where
  apiKeyConfigured : Bool
  libAvailable : Bool
  indexExists : Bool
  totalVectors : Nat
  deleteDefaultOk : Bool
  fallbackOk : Bool
  remainingAfterDelete : Nat

structure OpResult where
  success : Bool
  vectorsDeleted : Nat
deriving DecidableEq

/-- Model of `_clear_pinecone_data`: configuration guards, the
missing-index and empty-index early successes, the delete attempt with
its namespace fallback, and the verification that no vectors remain. -/
def clearPineconeData (w : PineconeWorld) : OpResult :=
  if ¬ w.apiKeyConfigured then ⟨false, 0⟩
  else if ¬ w.libAvailable then ⟨false, 0⟩
  else if ¬ w.indexExists then ⟨true, 0⟩
  else if w.totalVectors = 0 then ⟨true, 0⟩
  else if ¬ w.deleteDefaultOk ∧ ¬ w.fallbackOk then ⟨false, 0⟩
  else if w.remainingAfterDelete = 0 then ⟨true, w.totalVectors⟩
  else ⟨false, w.totalVectors - w.remainingAfterDelete⟩

structure MySqlWorld where
  configValid : Bool
  connectOk : Bool
  tables : List (String × Bool)

/-- Model of `_clear_mysql_data`: success on an empty database, and
otherwise success exactly when every table drop succeeded. -/
def clearMysqlData (w : MySqlWorld) : Bool :=
  if ¬ w.configValid then false
  else if ¬ w.connectOk then false
  else if w.tables = [] then true
  else w.tables.all (fun p => p.2)

structure SchemaFileWorld where
  fileExists : Bool
  writeOk : Bool

/-- Model of `_clear_table_schema`: success when the file is absent,
otherwise success of the rewrite with an empty object. -/
def clearTableSchema (w : SchemaFileWorld) : Bool :=
  if ¬ w.fileExists then true else w.writeOk

/-- Model of `clear_all_data`: the overall flag is the conjunction of the
three sub-operation flags. -/
def clearAllData (p : PineconeWorld) (m : MySqlWorld) (s : SchemaFileWorld) : Bool :=
  (clearPineconeData p).success && clearMysqlData m && clearTableSchema s

/-- C8: clear_all_data reports success exactly when all three
sub-operations succeed; a missing or empty Pinecone index, an empty
database and a missing schema file each count as success; a partial
vector deletion makes the Pinecone operation, and hence the overall
result, a failure. -/
theorem c8_clear_all_data (p : PineconeWorld) (m : MySqlWorld) (s : SchemaFileWorld) :
    (clearAllData p m s = true ↔
      ((clearPineconeData p).success = true ∧ clearMysqlData m = true ∧
        clearTableSchema s = true))
  ∧ (p.apiKeyConfigured = true → p.libAvailable = true → p.indexExists = false →
      (clearPineconeData p).success = true)
  ∧ (p.apiKeyConfigured = true → p.libAvailable = true → p.totalVectors = 0 →
      (clearPineconeData p).success = true)
  ∧ (m.configValid = true → m.connectOk = true → m.tables = [] →
      clearMysqlData m = true)
  ∧ (s.fileExists = false → clearTableSchema s = true)
  ∧ (p.indexExists = true → 0 < p.totalVectors → 0 < p.remainingAfterDelete →
      (clearPineconeData p).success = false ∧ clearAllData p m s = false) := by
  refine ⟨?_, ?_, ?_, ?_, ?_, ?_⟩
  · simp [clearAllData, Bool.and_assoc]
  · intro h1 h2 h3
    simp [clearPineconeData, h1, h2, h3]
  · intro h1 h2 h3
    simp [clearPineconeData, h1, h2, h3]
  · intro h1 h2 h3
    simp [clearMysqlData, h1, h2, h3]
  · intro h1
    simp [clearTableSchema, h1]
  · intro h1 h2 h3
    have hp : (clearPineconeData p).success = false := by
      unfold clearPineconeData
      split_ifs <;> simp_all
    exact ⟨hp, by simp [clearAllData, hp]⟩

/-- C8 witness: with a healthy configuration, a deletion that leaves one
vector behind makes the Pinecone operation and the overall clear fail. -/
theorem c8_clear_all_data_witness :
    (clearPineconeData ⟨true, true, true, 5, true, true, 1⟩).success = false
  ∧ clearAllData ⟨true, true, true, 5, true, true, 1⟩ ⟨true, true, []⟩ ⟨false, true⟩
      = false :=
  (c8_clear_all_data ⟨true, true, true, 5, true, true, 1⟩ ⟨true, true, []⟩
    ⟨false, true⟩).2.2.2.2.2 rfl (by decide) (by decide)

end EventBot
